import Mathlib

/-!
Verification development for a 2048-style sliding-tile game (single Rust
source file `src/main.rs`).  The board engine (`slide_right`, `slide_left`,
`slide_down`, `slide_up`), the spawn/reset logic and the particle friction
are shallowly embedded below; the four near-duplicate direction functions
are instances of one parameterized scan-and-merge routine (`stepD`/`slideD`)
whose neighbour function and processing order are taken verbatim from the
corresponding loops of the source.
-/

namespace TOFE

/-- Mirrors `struct Cell { value: u32, combined: bool }`.  Values stay far
below `2^32` in every reachable state, so `u32` is embedded as `Nat`. -/
structure Cell where
  value : Nat
  combined : Bool
deriving DecidableEq, Repr

/-- Mirrors `Cell::empty()`. -/
def Cell.empty : Cell := ⟨0, false⟩

/-- Mirrors `Cell::occupied(value)`. -/
def Cell.occupied (v : Nat) : Cell := ⟨v, false⟩

/-- Board position `(y, x)` in row-major order, as in `cells[y][x]`. -/
abbrev Pos := Nat × Nat

/-- The 4×4 grid `[[Cell; CELL_DIM]; CELL_DIM]` with `CELL_DIM = 4`. -/
abbrev Board := Fin 4 × Fin 4 → Cell

/-- In-bounds predicate for a position. -/
def inB (p : Pos) : Prop := p.1 < 4 ∧ p.2 < 4

instance (p : Pos) : Decidable (inB p) := by unfold inB; infer_instance

/-- Read `cells[y][x]`; out-of-bounds reads (which the source never makes)
give an empty cell. -/
def getN (b : Board) (p : Pos) : Cell :=
  if h : p.1 < 4 ∧ p.2 < 4 then b (⟨p.1, h.1⟩, ⟨p.2, h.2⟩) else Cell.empty

/-- Write `cells[y][x] = c`; out-of-bounds writes (never made) are no-ops. -/
def setN (b : Board) (p : Pos) (c : Cell) : Board :=
  if h : p.1 < 4 ∧ p.2 < 4 then Function.update b (⟨p.1, h.1⟩, ⟨p.2, h.2⟩) c else b

/-- Result of one slide call: mutated board, accumulated score delta, and
the list of merge locations (each `particles.append` site records the
destination cell of one merge, most recent first). -/
structure SlideS where
  bd : Board
  delta : Nat
  evs : List Pos

/-- The `while cell_x < …` scan of the slide loops: starting from `p`,
repeatedly step toward the target edge (`nx`) while the next cell exists
and is empty; stop just before the first occupied cell or at the edge.
`fuel = 4` strictly exceeds the at most 3 iterations any scan performs. -/
def scanGo (nx : Pos → Option Pos) (b : Board) : Nat → Pos → Pos
  | 0, p => p
  | fuel + 1, p =>
    match nx p with
    | none => p
    | some q => if (getN b q).value = 0 then scanGo nx b fuel q else p

/-- The merge part of the loop body: at the stopping point `c`, if the next
cell toward the edge exists and is occupied with the same value and neither
cell has combined this turn, double it, empty the source, bump the score
and record a merge event (the `particles.append` call site). -/
def mergePhase (nx : Pos → Option Pos) (s : SlideS) (p c : Pos) : SlideS :=
  match nx c with
  | none => s
  | some q =>
    if (getN s.bd q).value ≠ 0 ∧ (getN s.bd q).value = (getN s.bd p).value ∧
        (getN s.bd q).combined = false ∧ (getN s.bd p).combined = false then
      { bd := setN (setN s.bd q ⟨(getN s.bd p).value * 2, true⟩) p Cell.empty,
        delta := s.delta + (getN s.bd p).value * 2,
        evs := q :: s.evs }
    else s

/-- The final `if cell_x != x { cells[y][cell_x] = cells[y][x]; … }` move. -/
def movePhase (p c : Pos) (s : SlideS) : SlideS :=
  if c = p then s
  else { bd := setN (setN s.bd c (getN s.bd p)) p Cell.empty,
         delta := s.delta, evs := s.evs }

/-- One iteration of the inner slide loop for source cell `p`. -/
def stepD (nx : Pos → Option Pos) (s : SlideS) (p : Pos) : SlideS :=
  if (getN s.bd p).value = 0 then s
  else
    let c := scanGo nx s.bd 4 p
    movePhase p c (mergePhase nx s p c)

/-- A whole slide call: fold the loop body over the processing order. -/
def slideD (nx : Pos → Option Pos) (order : List Pos) (b : Board) : SlideS :=
  order.foldl (stepD nx) ⟨b, 0, []⟩

/-- Neighbour toward the right edge (`cells[y][cell_x + 1]`, guarded by
`cell_x < cells[0].len() - 1`). -/
def nxR (p : Pos) : Option Pos := if p.2 < 3 then some (p.1, p.2 + 1) else none

/-- Neighbour toward the left edge (`cells[y][cell_x - 1]`, guarded by
`cell_x > 0`). -/
def nxL (p : Pos) : Option Pos := if p.2 = 0 then none else some (p.1, p.2 - 1)

/-- Neighbour toward the bottom edge. -/
def nxD (p : Pos) : Option Pos := if p.1 < 3 then some (p.1 + 1, p.2) else none

/-- Neighbour toward the top edge. -/
def nxU (p : Pos) : Option Pos := if p.1 = 0 then none else some (p.1 - 1, p.2)

/-- Source-cell order of `slide_right`: `for y in 0..4`, `for x in (0..3).rev()`. -/
def orderR : List Pos :=
  [(0,2),(0,1),(0,0),(1,2),(1,1),(1,0),(2,2),(2,1),(2,0),(3,2),(3,1),(3,0)]

/-- Source-cell order of `slide_left`: `for y in 0..4`, `for x in 1..4`. -/
def orderL : List Pos :=
  [(0,1),(0,2),(0,3),(1,1),(1,2),(1,3),(2,1),(2,2),(2,3),(3,1),(3,2),(3,3)]

/-- Source-cell order of `slide_down`: `for y in (0..3).rev()`, `for x in 0..4`. -/
def orderD : List Pos :=
  [(2,0),(2,1),(2,2),(2,3),(1,0),(1,1),(1,2),(1,3),(0,0),(0,1),(0,2),(0,3)]

/-- Source-cell order of `slide_up`: `for y in 1..4`, `for x in 0..4`. -/
def orderU : List Pos :=
  [(1,0),(1,1),(1,2),(1,3),(2,0),(2,1),(2,2),(2,3),(3,0),(3,1),(3,2),(3,3)]

/-- Embeds `slide_right` (score return value = `delta`, particle bursts =
`evs`). -/
def slide_right (b : Board) : SlideS := slideD nxR orderR b

/-- Embeds `slide_left`. -/
def slide_left (b : Board) : SlideS := slideD nxL orderL b

/-- Embeds `slide_down`. -/
def slide_down (b : Board) : SlideS := slideD nxD orderD b

/-- Embeds `slide_up`. -/
def slide_up (b : Board) : SlideS := slideD nxU orderU b

/-- Mirrors `enum State { Playing, GameOwover, _Victory }`. -/
inductive State where
  | Playing
  | GameOwover
  | Victory
deriving DecidableEq, Repr

/-- The four directional inputs (arrow-key release events). -/
inductive Dir where
  | right
  | left
  | down
  | up
deriving DecidableEq, Repr

/-- Dispatch a direction to its slide function, as in the key-release
branches at lines 182–194 of `main`. -/
def slideOf : Dir → Board → SlideS
  | .right => slide_right
  | .left => slide_left
  | .down => slide_down
  | .up => slide_up

/-- Mirrors lines 180–194 of `main`: `moved` is set to `true` exactly when
one of the four direction keys was released this frame. -/
def movedFlag (inp : Option Dir) : Bool := inp.isSome

/-- Mirrors lines 196–200 of `main`: clear every `combined` flag. -/
def clearFlags (b : Board) : Board := fun z => ⟨(b z).value, false⟩

/-- Mirrors lines 203–208 of `main`: `has_empty_cell |= cells[y][x].is_empty()`
over the whole grid. -/
def hasEmptyCell (b : Board) : Bool :=
  (List.finRange 4).any fun y => (List.finRange 4).any fun x => (b (y, x)).value == 0

/-- The freshly spawned tile value `2_i32.pow(r % 2 + 1)` for a random `r`:
always 2 or 4. -/
def spawnVal (r : Nat) : Nat := 2 ^ (r % 2 + 1)

/-- The spawn retry loop at lines 210–218 of `main`: draw candidate cells
from the random stream `cands` until one is empty, then occupy it.  `none`
models a stream too short to hit an empty cell (the loop would keep
drawing). -/
def spawnLoop (b : Board) (v : Nat) : List (Fin 4 × Fin 4) → Option Board
  | [] => none
  | z :: rest => if (b z).value = 0 then some (Function.update b z (Cell.occupied v)) else spawnLoop b v rest

/-- One `Playing`-state frame of the main loop (lines 179–222) given the
directional input of the frame and oracles for the random draws: the slide
(if a key fired), the per-frame `combined`-flag clear, and the
spawn-or-game-over check guarded by `moved`.  Returns the new
`(cells, score, state)`; `none` models a spawn whose random stream never
hit an empty cell. -/
def turn (b : Board) (sc : Nat) (st : State) (inp : Option Dir)
    (cands : List (Fin 4 × Fin 4)) (r : Nat) : Option (Board × Nat × State) :=
  if st = State.Playing then
    let s : SlideS := match inp with
      | some d => slideOf d b
      | none => ⟨b, 0, []⟩
    let b1 := clearFlags s.bd
    let sc1 := sc + s.delta
    if movedFlag inp then
      if hasEmptyCell b1 then
        match spawnLoop b1 (spawnVal r) cands with
        | some b2 => some (b2, sc1, State.Playing)
        | none => none
      else some (b1, sc1, State.GameOwover)
    else some (b1, sc1, st)
  else some (b, sc, st)

/-- The `while generated < num_cells` loop of `random_cells`, with the
random `(position, value-draw)` pairs supplied as the stream `cands`. -/
def randomCellsGo (num : Nat) (generated : Nat) (b : Board) :
    List ((Fin 4 × Fin 4) × Nat) → Option Board
  | [] => if num ≤ generated then some b else none
  | (z, r) :: rest =>
    if num ≤ generated then some b
    else if (b z).value = 0 then
      randomCellsGo num (generated + 1) (Function.update b z (Cell.occupied (spawnVal r))) rest
    else randomCellsGo num generated b rest

/-- Embeds `random_cells()`: start from the all-empty grid and seed
`num ∈ {2, 3}` cells (`num` is the draw `gen_range(2..=3)`). -/
def random_cells (num : Nat) (cands : List ((Fin 4 × Fin 4) × Nat)) : Option Board :=
  randomCellsGo num 0 (fun _ => Cell.empty) cands

/-- Friction model over exact rationals: `f32` arithmetic in
`decrease_abs` is comparisons, one addition or subtraction, and clamping,
so its sign/magnitude behaviour is embedded over `ℚ`. -/
def decrease_abs (x amount : ℚ) : ℚ :=
  if 0 < x then
    if x - amount < 0 then 0 else x - amount
  else if x < 0 then
    if 0 < x + amount then 0 else x + amount
  else 0

/-- Mirrors `PARTICLE_LIFE_DECAY: f32 = 200.0`. -/
def PARTICLE_LIFE_DECAY : ℚ := 200

/-- Mirrors `PARTICLE_FRICTION: f32 = 20.0`. -/
def PARTICLE_FRICTION : ℚ := 20

/-- The simulation state of `struct Particle` (size and colour omitted:
they are never mutated and feed only the renderer). -/
structure ParticleM where
  x : ℚ
  y : ℚ
  vel_x : ℚ
  vel_y : ℚ
  life : ℚ
deriving DecidableEq, Repr

/-- Mirrors `Particle::tick(dt)`: advance position by the old velocity,
decay life, then apply friction to each velocity component. -/
def ParticleM.tick (p : ParticleM) (dt : ℚ) : ParticleM :=
  { x := p.x + p.vel_x * dt,
    y := p.y + p.vel_y * dt,
    vel_x := decrease_abs p.vel_x (PARTICLE_FRICTION * dt),
    vel_y := decrease_abs p.vel_y (PARTICLE_FRICTION * dt),
    life := p.life - dt * PARTICLE_LIFE_DECAY }

/-- A sequence of `tick` calls with the listed frame times. -/
def ParticleM.ticks (p : ParticleM) : List ℚ → ParticleM
  | [] => p
  | dt :: rest => (p.tick dt).ticks rest

/-- Mirrors `struct GameState`. -/
structure GameState where
  cells : Board
  score : Nat
  state : State
  particles : List ParticleM

/-- Mirrors `GameState::new()`. -/
def GameState.new : GameState :=
  ⟨fun _ => Cell.empty, 0, State.Playing, []⟩

/-- Mirrors `GameState::reset()`, with the random draws of `random_cells`
passed as oracles. -/
def GameState.reset (_g : GameState) (num : Nat)
    (cands : List ((Fin 4 × Fin 4) × Nat)) : Option GameState :=
  match random_cells num cands with
  | some b => some ⟨b, 0, State.Playing, []⟩
  | none => none

/-- The all-empty board. -/
def emptyB : Board := fun _ => Cell.empty

/-- Place a value (with a clear merge flag) at a cell of a board literal. -/
def putB (b : Board) (y x : Fin 4) (v : Nat) : Board :=
  Function.update b (y, x) (Cell.occupied v)

/-- Aggregate a cell statistic over the whole grid. -/
def sumG (g : Cell → Nat) (b : Board) : Nat := ∑ z, g (b z)

/-- Total of all tile values on the board. -/
def boardSum (b : Board) : Nat := sumG (fun c => c.value) b

/-- Occupancy indicator of a cell. -/
def occ01 (c : Cell) : Nat := if c.value = 0 then 0 else 1

/-- Number of occupied cells on the board. -/
def occCount (b : Board) : Nat := sumG occ01 b

/-- Direction data: a neighbour map `nx`, the coordinate `l` it preserves
(the row for horizontal slides, the column for vertical ones), and a
measure `m` it strictly increases (distance travelled toward the target
edge), staying on the board. -/
structure DirOK (nx : Pos → Option Pos) (l m : Pos → Nat) : Prop where
  hl : ∀ p q, nx p = some q → inB p → l q = l p
  hm : ∀ p q, nx p = some q → inB p → m p < m q
  hb : ∀ p q, nx p = some q → inB p → inB q

/-- All merge flags clear (the state at the start of every turn: the main
loop clears them each frame). -/
def ClearBF (b : Board) : Prop := ∀ z : Fin 4 × Fin 4, (b z).combined = false

instance (b : Board) : Decidable (ClearBF b) := by unfold ClearBF; infer_instance

/-- Invariant carried through the fold, relative to the still-unprocessed
source cells `L`: the merge events so far are pairwise distinct, each event
destination still holds a combined occupied tile, and every combined cell
is occupied. -/
def evsInv (L : List Pos) (s : SlideS) : Prop :=
  s.evs.Nodup ∧
    (∀ e ∈ s.evs, (getN s.bd e).combined = true) ∧
    (∀ e ∈ s.evs, e ∉ L) ∧
    (∀ r : Pos, (getN s.bd r).combined = true → (getN s.bd r).value ≠ 0)

/-- Every occupied cell's value is a power of two at least 2. -/
def Pow2Cells (b : Board) : Prop :=
  ∀ r : Pos, (getN b r).value ≠ 0 → ∃ k, 1 ≤ k ∧ (getN b r).value = 2 ^ k

/-- Row 0 of the board holds `[2, 2, 2, _]`, the chain-merge example. -/
def b222 : Board := putB (putB (putB emptyB 0 0 2) 0 1 2) 0 2 2

/-- Expected result of sliding `b222` right: the two tiles nearest the
right edge merged into a 4, the third settles unmerged beside them. -/
def b222out : Board :=
  Function.update (Function.update emptyB ((0 : Fin 4), (2 : Fin 4)) ⟨2, false⟩)
    ((0 : Fin 4), (3 : Fin 4)) ⟨4, true⟩

/-- Row 0 of the board holds `[2, 2, 4, 4]`, the end-to-end example. -/
def b2244 : Board := putB (putB (putB (putB emptyB 0 0 2) 0 1 2) 0 2 4) 0 3 4

/-- Expected result of sliding `b2244` left: `[4, 8, 0, 0]`. -/
def b2244out : Board :=
  Function.update (Function.update emptyB ((0 : Fin 4), (0 : Fin 4)) ⟨4, true⟩)
    ((0 : Fin 4), (1 : Fin 4)) ⟨8, true⟩

/-- Single tile already resting at the right edge: sliding right moves
nothing and merges nothing. -/
def bStuck1 : Board := putB emptyB 0 3 2

/-- Row 0 holds `[_, _, 2, 4]`: no tile can move or merge sliding right. -/
def bStuck2 : Board := putB (putB emptyB 0 2 2) 0 3 4

/-- Row 0 holds `[2, 2, _, _]`: sliding right merges once (score 4) while
leaving the total of tile values unchanged at 4. -/
def b22 : Board := putB (putB emptyB 0 0 2) 0 1 2

/-! Basic read/write lemmas. -/

theorem Cell.empty_value : Cell.empty.value = 0 := rfl

theorem getN_fin (b : Board) (z : Fin 4 × Fin 4) : getN b (z.1.val, z.2.val) = b z := by
  have h1 : (z.1.val : Nat) < 4 := z.1.isLt
  have h2 : (z.2.val : Nat) < 4 := z.2.isLt
  simp [getN, h1, h2]

theorem getN_setN_self (b : Board) (p : Pos) (c : Cell) (h : inB p) :
    getN (setN b p c) p = c := by
  obtain ⟨h1, h2⟩ := h
  simp [getN, setN, h1, h2]

theorem getN_setN_ne (b : Board) (p q : Pos) (c : Cell) (h : q ≠ p) :
    getN (setN b p c) q = getN b q := by
  by_cases hp : p.1 < 4 ∧ p.2 < 4
  · by_cases hq : q.1 < 4 ∧ q.2 < 4
    · simp only [getN, setN, dif_pos hp, dif_pos hq]
      rw [Function.update_noteq]
      intro hcon
      rw [Prod.ext_iff] at hcon
      simp only [Fin.mk.injEq] at hcon
      exact h (Prod.ext hcon.1 hcon.2)
    · simp only [getN, setN, dif_pos hp, dif_neg hq]
  · simp only [getN, setN, dif_neg hp]

theorem sumG_update (g : Cell → Nat) (b : Board) (z : Fin 4 × Fin 4) (c : Cell) :
    sumG g (Function.update b z c) + g (b z) = sumG g b + g c := by
  unfold sumG
  have h1 : ∀ w, g ((Function.update b z c) w) =
      Function.update (fun w => g (b w)) z (g c) w := fun w =>
    Function.apply_update (fun _ cc => g cc) b z c w
  rw [Finset.sum_congr rfl fun w _ => h1 w]
  rw [Finset.sum_update_of_mem (Finset.mem_univ z)]
  rw [← Finset.add_sum_erase Finset.univ (fun w => g (b w)) (Finset.mem_univ z)]
  rw [Finset.erase_eq]
  omega

theorem sumG_setN (g : Cell → Nat) (b : Board) (p : Pos) (c : Cell) (h : inB p) :
    sumG g (setN b p c) + g (getN b p) = sumG g b + g c := by
  obtain ⟨h1, h2⟩ := h
  have hset : setN b p c = Function.update b (⟨p.1, h1⟩, ⟨p.2, h2⟩) c := by
    simp [setN, h1, h2]
  have hget : getN b p = b (⟨p.1, h1⟩, ⟨p.2, h2⟩) := by
    simp [getN, h1, h2]
  rw [hset, hget]
  exact sumG_update g b _ c

/-! Scan lemmas. -/

theorem scanGo_zero (nx : Pos → Option Pos) (b : Board) (p : Pos) :
    scanGo nx b 0 p = p := rfl

theorem scanGo_succ_none {nx : Pos → Option Pos} {p : Pos} (b : Board) (n : Nat)
    (hnx : nx p = none) : scanGo nx b (n + 1) p = p := by
  simp [scanGo, hnx]

theorem scanGo_succ_some {nx : Pos → Option Pos} {p q : Pos} (b : Board) (n : Nat)
    (hnx : nx p = some q) :
    scanGo nx b (n + 1) p = if (getN b q).value = 0 then scanGo nx b n q else p := by
  simp [scanGo, hnx]

theorem scanGo_value (nx : Pos → Option Pos) (b : Board) :
    ∀ fuel p, scanGo nx b fuel p ≠ p → (getN b (scanGo nx b fuel p)).value = 0 := by
  intro fuel
  induction fuel with
  | zero => intro p h; simp [scanGo_zero] at h
  | succ n ih =>
    intro p h
    cases hnx : nx p with
    | none =>
      rw [scanGo_succ_none b n hnx] at h
      exact absurd rfl h
    | some q =>
      rw [scanGo_succ_some b n hnx] at h ⊢
      by_cases hq : (getN b q).value = 0
      · rw [if_pos hq] at h ⊢
        by_cases hqq : scanGo nx b n q = q
        · rw [hqq]; exact hq
        · exact ih q hqq
      · rw [if_neg hq] at h
        exact absurd rfl h

theorem scanGo_props {nx : Pos → Option Pos} {l m : Pos → Nat} (h : DirOK nx l m)
    (b : Board) : ∀ fuel p, inB p →
    inB (scanGo nx b fuel p) ∧ l (scanGo nx b fuel p) = l p ∧
      m p ≤ m (scanGo nx b fuel p) := by
  intro fuel
  induction fuel with
  | zero => intro p hp; simpa [scanGo_zero] using hp
  | succ n ih =>
    intro p hp
    cases hnx : nx p with
    | none => rw [scanGo_succ_none b n hnx]; exact ⟨hp, rfl, le_refl _⟩
    | some q =>
      rw [scanGo_succ_some b n hnx]
      by_cases hq : (getN b q).value = 0
      · rw [if_pos hq]
        have hqb : inB q := h.hb p q hnx hp
        obtain ⟨h1, h2, h3⟩ := ih q hqb
        exact ⟨h1, h2.trans (h.hl p q hnx hp), le_trans (le_of_lt (h.hm p q hnx hp)) h3⟩
      · rw [if_neg hq]
        exact ⟨hp, rfl, le_refl _⟩

theorem nxR_eq {p q : Pos} (h : nxR p = some q) : p.2 < 3 ∧ q = (p.1, p.2 + 1) := by
  unfold nxR at h
  split at h
  · exact ⟨by assumption, (Option.some_inj.mp h).symm⟩
  · cases h

theorem nxL_eq {p q : Pos} (h : nxL p = some q) : p.2 ≠ 0 ∧ q = (p.1, p.2 - 1) := by
  unfold nxL at h
  split at h
  · cases h
  · exact ⟨by assumption, (Option.some_inj.mp h).symm⟩

theorem nxD_eq {p q : Pos} (h : nxD p = some q) : p.1 < 3 ∧ q = (p.1 + 1, p.2) := by
  unfold nxD at h
  split at h
  · exact ⟨by assumption, (Option.some_inj.mp h).symm⟩
  · cases h

theorem nxU_eq {p q : Pos} (h : nxU p = some q) : p.1 ≠ 0 ∧ q = (p.1 - 1, p.2) := by
  unfold nxU at h
  split at h
  · cases h
  · exact ⟨by assumption, (Option.some_inj.mp h).symm⟩

theorem dirOK_R : DirOK nxR Prod.fst Prod.snd := by
  refine ⟨?_, ?_, ?_⟩ <;> intro p q hpq hp <;> obtain ⟨h3, rfl⟩ := nxR_eq hpq
  · rfl
  · simp
  · exact ⟨hp.1, by omega⟩

theorem dirOK_L : DirOK nxL Prod.fst (fun z => 3 - z.2) := by
  refine ⟨?_, ?_, ?_⟩ <;> intro p q hpq hp <;> obtain ⟨h3, rfl⟩ := nxL_eq hpq <;>
    obtain ⟨hp1, hp2⟩ := hp
  · rfl
  · simp only; omega
  · exact ⟨hp1, by omega⟩

theorem dirOK_D : DirOK nxD Prod.snd Prod.fst := by
  refine ⟨?_, ?_, ?_⟩ <;> intro p q hpq hp <;> obtain ⟨h3, rfl⟩ := nxD_eq hpq
  · rfl
  · simp
  · exact ⟨by omega, hp.2⟩

theorem dirOK_U : DirOK nxU Prod.snd (fun z => 3 - z.1) := by
  refine ⟨?_, ?_, ?_⟩ <;> intro p q hpq hp <;> obtain ⟨h3, rfl⟩ := nxU_eq hpq <;>
    obtain ⟨hp1, hp2⟩ := hp
  · rfl
  · simp only; omega
  · exact ⟨by omega, hp2⟩

/-! Unfolding lemmas for the slide phases. -/

theorem stepD_skip (nx : Pos → Option Pos) (s : SlideS) (p : Pos)
    (h0 : (getN s.bd p).value = 0) : stepD nx s p = s := by
  unfold stepD
  rw [if_pos h0]

theorem stepD_eq (nx : Pos → Option Pos) (s : SlideS) (p : Pos)
    (h0 : ¬ (getN s.bd p).value = 0) :
    stepD nx s p = movePhase p (scanGo nx s.bd 4 p) (mergePhase nx s p (scanGo nx s.bd 4 p)) := by
  unfold stepD
  rw [if_neg h0]

theorem mergePhase_none {nx : Pos → Option Pos} {c : Pos} (s : SlideS) (p : Pos)
    (hnx : nx c = none) : mergePhase nx s p c = s := by
  unfold mergePhase
  rw [hnx]

theorem mergePhase_some_neg {nx : Pos → Option Pos} {c q : Pos} (s : SlideS) (p : Pos)
    (hnx : nx c = some q)
    (hcond : ¬ ((getN s.bd q).value ≠ 0 ∧ (getN s.bd q).value = (getN s.bd p).value ∧
      (getN s.bd q).combined = false ∧ (getN s.bd p).combined = false)) :
    mergePhase nx s p c = s := by
  unfold mergePhase
  rw [hnx]
  exact if_neg hcond

theorem mergePhase_some_pos {nx : Pos → Option Pos} {c q : Pos} (s : SlideS) (p : Pos)
    (hnx : nx c = some q)
    (hcond : (getN s.bd q).value ≠ 0 ∧ (getN s.bd q).value = (getN s.bd p).value ∧
      (getN s.bd q).combined = false ∧ (getN s.bd p).combined = false) :
    mergePhase nx s p c =
      ⟨setN (setN s.bd q ⟨(getN s.bd p).value * 2, true⟩) p Cell.empty,
       s.delta + (getN s.bd p).value * 2, q :: s.evs⟩ := by
  unfold mergePhase
  rw [hnx]
  exact if_pos hcond

theorem movePhase_stay (p c : Pos) (s : SlideS) (hcp : c = p) : movePhase p c s = s := by
  unfold movePhase
  rw [if_pos hcp]

theorem movePhase_move (p c : Pos) (s : SlideS) (hcp : ¬ c = p) :
    movePhase p c s =
      ⟨setN (setN s.bd c (getN s.bd p)) p Cell.empty, s.delta, s.evs⟩ := by
  unfold movePhase
  rw [if_neg hcp]

/-- Case analysis of one loop-body iteration for an occupied source `p`:
either nothing happens, or the tile moves into an empty cell, or it merges
into the neighbouring equal tile (possibly followed by the vacuous move of
the now-empty source cell). -/
theorem stepD_anatomy {nx : Pos → Option Pos} {l m : Pos → Nat} (h : DirOK nx l m)
    (s : SlideS) (p : Pos) (hp : inB p) (h0 : ¬ (getN s.bd p).value = 0) :
    ∃ c : Pos, inB c ∧ l c = l p ∧ m p ≤ m c ∧ (c ≠ p → (getN s.bd c).value = 0) ∧
      ((stepD nx s p = s) ∨
       (c ≠ p ∧ stepD nx s p =
          ⟨setN (setN s.bd c (getN s.bd p)) p Cell.empty, s.delta, s.evs⟩) ∨
       (∃ q, nx c = some q ∧ inB q ∧ l q = l p ∧ m c < m q ∧ q ≠ p ∧ q ≠ c ∧
          (getN s.bd q).value = (getN s.bd p).value ∧
          (getN s.bd q).combined = false ∧ (getN s.bd p).combined = false ∧
          ((c = p ∧ stepD nx s p =
              ⟨setN (setN s.bd q ⟨(getN s.bd p).value * 2, true⟩) p Cell.empty,
               s.delta + (getN s.bd p).value * 2, q :: s.evs⟩) ∨
           (c ≠ p ∧ stepD nx s p =
              ⟨setN (setN (setN (setN s.bd q ⟨(getN s.bd p).value * 2, true⟩) p Cell.empty) c
                  (getN (setN (setN s.bd q ⟨(getN s.bd p).value * 2, true⟩) p Cell.empty) p))
                 p Cell.empty,
               s.delta + (getN s.bd p).value * 2, q :: s.evs⟩)))) := by
  obtain ⟨hcB, hcl, hcm⟩ := scanGo_props h s.bd 4 p hp
  refine ⟨scanGo nx s.bd 4 p, hcB, hcl, hcm, scanGo_value nx s.bd 4 p, ?_⟩
  rw [stepD_eq nx s p h0]
  cases hnx : nx (scanGo nx s.bd 4 p) with
  | none =>
    rw [mergePhase_none s p hnx]
    by_cases hcp : scanGo nx s.bd 4 p = p
    · rw [movePhase_stay _ _ _ hcp]
      exact Or.inl rfl
    · rw [movePhase_move _ _ _ hcp]
      exact Or.inr (Or.inl ⟨hcp, rfl⟩)
  | some q =>
    by_cases hcond : (getN s.bd q).value ≠ 0 ∧ (getN s.bd q).value = (getN s.bd p).value ∧
        (getN s.bd q).combined = false ∧ (getN s.bd p).combined = false
    · rw [mergePhase_some_pos s p hnx hcond]
      have hqB : inB q := h.hb _ q hnx hcB
      have hql : l q = l p := (h.hl _ q hnx hcB).trans hcl
      have hqm : m (scanGo nx s.bd 4 p) < m q := h.hm _ q hnx hcB
      have hqc : q ≠ scanGo nx s.bd 4 p := fun he => by rw [he] at hqm; omega
      have hqp : q ≠ p := fun he => by rw [he] at hqm; omega
      refine Or.inr (Or.inr ⟨q, rfl, hqB, hql, hqm, hqp, hqc,
        hcond.2.1, hcond.2.2.1, hcond.2.2.2, ?_⟩)
      by_cases hcp : scanGo nx s.bd 4 p = p
      · rw [movePhase_stay _ _ _ hcp]
        exact Or.inl ⟨hcp, rfl⟩
      · rw [movePhase_move _ _ _ hcp]
        exact Or.inr ⟨hcp, rfl⟩
    · rw [mergePhase_some_neg s p hnx hcond]
      by_cases hcp : scanGo nx s.bd 4 p = p
      · rw [movePhase_stay _ _ _ hcp]
        exact Or.inl rfl
      · rw [movePhase_move _ _ _ hcp]
        exact Or.inr (Or.inl ⟨hcp, rfl⟩)

/-! Conservation: one loop-body iteration preserves the board sum, and
trades occupied cells one-for-one against merge events. -/

theorem occ01_zero {c : Cell} (h : c.value = 0) : occ01 c = 0 := by
  simp [occ01, h]

theorem occ01_pos {c : Cell} (h : ¬ c.value = 0) : occ01 c = 1 := by
  simp [occ01, h]

theorem stepD_conserve {nx : Pos → Option Pos} {l m : Pos → Nat} (h : DirOK nx l m)
    (s : SlideS) (p : Pos) (hp : inB p) :
    boardSum (stepD nx s p).bd = boardSum s.bd ∧
      occCount (stepD nx s p).bd + (stepD nx s p).evs.length
        = occCount s.bd + s.evs.length := by
  by_cases h0 : (getN s.bd p).value = 0
  · rw [stepD_skip nx s p h0]
    exact ⟨rfl, rfl⟩
  obtain ⟨c, hcB, hcl, hcm, hcv, hcase⟩ := stepD_anatomy h s p hp h0
  rcases hcase with hstep | ⟨hcp, hstep⟩ | ⟨q, hnx, hqB, hql, hqm, hqp, hqc, hveq, hqcomb,
    hpcomb, hsub⟩
  · rw [hstep]
    exact ⟨rfl, rfl⟩
  · -- pure move into the empty cell c
    rw [hstep]
    dsimp only
    have hv0 : (getN s.bd c).value = 0 := hcv hcp
    have hpc : p ≠ c := Ne.symm hcp
    have hgp : getN (setN s.bd c (getN s.bd p)) p = getN s.bd p :=
      getN_setN_ne _ _ _ _ hpc
    constructor
    · have e1 := sumG_setN (fun cc => cc.value) s.bd c (getN s.bd p) hcB
      have e2 := sumG_setN (fun cc => cc.value) (setN s.bd c (getN s.bd p)) p Cell.empty hp
      rw [hgp] at e2
      dsimp only at e1 e2
      rw [Cell.empty_value] at e2
      rw [hv0] at e1
      show sumG (fun cc => cc.value) _ = sumG (fun cc => cc.value) _
      omega
    · have e1 := sumG_setN occ01 s.bd c (getN s.bd p) hcB
      have e2 := sumG_setN occ01 (setN s.bd c (getN s.bd p)) p Cell.empty hp
      rw [hgp] at e2
      rw [occ01_zero hv0] at e1
      rw [occ01_pos h0] at e1 e2
      rw [occ01_zero (show Cell.empty.value = 0 from rfl)] at e2
      show sumG occ01 _ + _ = sumG occ01 _ + _
      omega
  · -- merge of source p into destination q (at value v), then possibly the
    -- vacuous move of the emptied source
    have hvq0 : ¬ (getN s.bd q).value = 0 := by rw [hveq]; exact h0
    have e1 := sumG_setN (fun cc => cc.value) s.bd q ⟨(getN s.bd p).value * 2, true⟩ hqB
    have e1o := sumG_setN occ01 s.bd q ⟨(getN s.bd p).value * 2, true⟩ hqB
    have hgp1 : getN (setN s.bd q ⟨(getN s.bd p).value * 2, true⟩) p = getN s.bd p :=
      getN_setN_ne _ _ _ _ (Ne.symm hqp)
    have e2 := sumG_setN (fun cc => cc.value)
      (setN s.bd q ⟨(getN s.bd p).value * 2, true⟩) p Cell.empty hp
    have e2o := sumG_setN occ01 (setN s.bd q ⟨(getN s.bd p).value * 2, true⟩) p Cell.empty hp
    rw [hgp1] at e2 e2o
    dsimp only at e1 e2
    rw [Cell.empty_value] at e2
    rw [hveq] at e1
    rw [occ01_pos hvq0] at e1o
    rw [occ01_pos h0] at e2o
    have hocc2 : occ01 (⟨(getN s.bd p).value * 2, true⟩ : Cell) = 1 :=
      occ01_pos (by dsimp only; omega)
    rw [hocc2] at e1o
    rw [occ01_zero (show Cell.empty.value = 0 from rfl)] at e2o
    rcases hsub with ⟨hcp, hstep⟩ | ⟨hcp, hstep⟩
    · rw [hstep]
      dsimp only
      constructor
      · show sumG (fun cc => cc.value) _ = sumG (fun cc => cc.value) _
        omega
      · show sumG occ01 _ + _ = sumG occ01 _ + _
        simp only [List.length_cons]
        omega
    · rw [hstep]
      dsimp only
      -- the extra move writes an empty cell over the empty cell c
      have hgpE : getN (setN (setN s.bd q ⟨(getN s.bd p).value * 2, true⟩) p Cell.empty) p
          = Cell.empty := getN_setN_self _ _ _ hp
      rw [hgpE]
      have hgc : getN (setN (setN s.bd q ⟨(getN s.bd p).value * 2, true⟩) p Cell.empty) c
          = getN s.bd c := by
        rw [getN_setN_ne _ _ _ _ hcp, getN_setN_ne _ _ _ _ (Ne.symm hqc)]
      have e3 := sumG_setN (fun cc => cc.value)
        (setN (setN s.bd q ⟨(getN s.bd p).value * 2, true⟩) p Cell.empty) c Cell.empty hcB
      have e3o := sumG_setN occ01
        (setN (setN s.bd q ⟨(getN s.bd p).value * 2, true⟩) p Cell.empty) c Cell.empty hcB
      rw [hgc] at e3 e3o
      dsimp only at e3
      rw [Cell.empty_value] at e3
      rw [hcv hcp] at e3
      rw [occ01_zero (hcv hcp)] at e3o
      rw [occ01_zero (show Cell.empty.value = 0 from rfl)] at e3o
      set B2 := setN (setN (setN s.bd q ⟨(getN s.bd p).value * 2, true⟩) p Cell.empty) c
        Cell.empty with hB2
      have hgp2 : getN B2 p = Cell.empty := by
        rw [hB2, getN_setN_ne _ _ _ _ (Ne.symm hcp)]
        exact getN_setN_self _ _ _ hp
      have e4 := sumG_setN (fun cc => cc.value) B2 p Cell.empty hp
      have e4o := sumG_setN occ01 B2 p Cell.empty hp
      rw [hgp2] at e4 e4o
      dsimp only at e4
      rw [Cell.empty_value] at e4
      rw [occ01_zero (show Cell.empty.value = 0 from rfl)] at e4o
      constructor
      · show sumG (fun cc => cc.value) _ = sumG (fun cc => cc.value) _
        omega
      · show sumG occ01 _ + _ = sumG occ01 _ + _
        simp only [List.length_cons]
        omega

/-- Folding the loop body over any in-bounds processing order preserves the
board sum and the occupied-count-plus-events total. -/
theorem foldl_stepD_conserve {nx : Pos → Option Pos} {l m : Pos → Nat}
    (h : DirOK nx l m) :
    ∀ (L : List Pos) (s : SlideS), (∀ r ∈ L, inB r) →
      boardSum (L.foldl (stepD nx) s).bd = boardSum s.bd ∧
        occCount (L.foldl (stepD nx) s).bd + (L.foldl (stepD nx) s).evs.length
          = occCount s.bd + s.evs.length := by
  intro L
  induction L with
  | nil => intro s hL; exact ⟨rfl, rfl⟩
  | cons a L ih =>
    intro s hL
    have ha : inB a := hL a (List.mem_cons_self a L)
    have hL' : ∀ r ∈ L, inB r := fun r hr => hL r (List.mem_cons_of_mem a hr)
    obtain ⟨ih1, ih2⟩ := ih (stepD nx s a) hL'
    obtain ⟨s1, s2⟩ := stepD_conserve h s a ha
    exact ⟨by rw [List.foldl_cons, ih1, s1], by rw [List.foldl_cons]; omega⟩

theorem orderR_inB : ∀ r ∈ orderR, inB r := by decide
theorem orderL_inB : ∀ r ∈ orderL, inB r := by decide
theorem orderD_inB : ∀ r ∈ orderD, inB r := by decide
theorem orderU_inB : ∀ r ∈ orderU, inB r := by decide

theorem slide_right_conserve (b : Board) :
    boardSum (slide_right b).bd = boardSum b ∧
      occCount (slide_right b).bd + (slide_right b).evs.length = occCount b := by
  have := foldl_stepD_conserve dirOK_R orderR ⟨b, 0, []⟩ orderR_inB
  simpa [slide_right, slideD] using this

theorem slide_left_conserve (b : Board) :
    boardSum (slide_left b).bd = boardSum b ∧
      occCount (slide_left b).bd + (slide_left b).evs.length = occCount b := by
  have := foldl_stepD_conserve dirOK_L orderL ⟨b, 0, []⟩ orderL_inB
  simpa [slide_left, slideD] using this

theorem slide_down_conserve (b : Board) :
    boardSum (slide_down b).bd = boardSum b ∧
      occCount (slide_down b).bd + (slide_down b).evs.length = occCount b := by
  have := foldl_stepD_conserve dirOK_D orderD ⟨b, 0, []⟩ orderD_inB
  simpa [slide_down, slideD] using this

theorem slide_up_conserve (b : Board) :
    boardSum (slide_up b).bd = boardSum b ∧
      occCount (slide_up b).bd + (slide_up b).evs.length = occCount b := by
  have := foldl_stepD_conserve dirOK_U orderU ⟨b, 0, []⟩ orderU_inB
  simpa [slide_up, slideD] using this

/-! No double merge: during one slide call every merge destination keeps its
`combined` flag, so no cell can host (or feed) a second merge. -/

theorem ClearBF_getN {b : Board} (h : ClearBF b) (p : Pos) :
    (getN b p).combined = false := by
  unfold getN
  split
  · exact h _
  · rfl

theorem stepD_evsInv {nx : Pos → Option Pos} {l m : Pos → Nat} (h : DirOK nx l m)
    (L : List Pos) (s : SlideS) (p : Pos) (hp : inB p)
    (hL : ∀ r ∈ L, l r = l p → m r < m p) (hI : evsInv (p :: L) s) :
    evsInv L (stepD nx s p) := by
  obtain ⟨hA, hB, hC, hD⟩ := hI
  have hC' : ∀ e ∈ s.evs, e ∉ L := fun e he hm => hC e he (List.mem_cons_of_mem p hm)
  have hCp : ∀ e ∈ s.evs, e ≠ p := fun e he hep =>
    hC e he (hep ▸ List.mem_cons_self p L)
  by_cases h0 : (getN s.bd p).value = 0
  · rw [stepD_skip nx s p h0]
    exact ⟨hA, hB, hC', hD⟩
  obtain ⟨c, hcB, hcl, hcm, hcv, hcase⟩ := stepD_anatomy h s p hp h0
  rcases hcase with hstep | ⟨hcp, hstep⟩ | ⟨q, hnx, hqB, hql, hqm, hqp, hqc, hveq, hqcomb,
    hpcomb, hsub⟩
  · rw [hstep]
    exact ⟨hA, hB, hC', hD⟩
  · -- pure move of the source into the empty cell c
    rw [hstep]
    unfold evsInv
    dsimp only
    have hv0 := hcv hcp
    refine ⟨hA, ?_, hC', ?_⟩
    · intro e he
      have hecT : (getN s.bd e).combined = true := hB e he
      have hec : e ≠ c := fun hec => hD e hecT (hec ▸ hv0)
      rw [getN_setN_ne _ _ _ _ (hCp e he), getN_setN_ne _ _ _ _ hec]
      exact hecT
    · intro r hr
      by_cases hrp : r = p
      · rw [hrp, getN_setN_self _ _ _ hp] at hr
        cases hr
      · rw [getN_setN_ne _ _ _ _ hrp] at hr ⊢
        by_cases hrc : r = c
        · rw [hrc, getN_setN_self _ _ _ hcB] at hr ⊢
          exact h0
        · rw [getN_setN_ne _ _ _ _ hrc] at hr ⊢
          exact hD r hr
  · -- merge of p into q, possibly followed by the vacuous move
    have hqnotin : q ∉ s.evs := fun hq => by
      have := hB q hq
      rw [hqcomb] at this
      cases this
    have hA1 : (q :: s.evs).Nodup := List.nodup_cons.mpr ⟨hqnotin, hA⟩
    have hqnotL : q ∉ L := by
      intro hqL
      by_cases hlq : l q = l p
      · have := hL q hqL (by rw [hql])
        omega
      · exact hlq hql
    have hC1 : ∀ e ∈ q :: s.evs, e ∉ L := by
      intro e he
      rcases List.mem_cons.mp he with rfl | he'
      · exact hqnotL
      · exact hC' e he'
    have hB1 : ∀ e ∈ q :: s.evs,
        (getN (setN (setN s.bd q ⟨(getN s.bd p).value * 2, true⟩) p Cell.empty) e).combined
          = true := by
      intro e he
      rcases List.mem_cons.mp he with rfl | he'
      · rw [getN_setN_ne _ _ _ _ hqp, getN_setN_self _ _ _ hqB]
      · have heq : e ≠ q := fun heq => by
          have := hB e he'
          rw [heq, hqcomb] at this
          cases this
        rw [getN_setN_ne _ _ _ _ (hCp e he'), getN_setN_ne _ _ _ _ heq]
        exact hB e he'
    have hD1 : ∀ r : Pos,
        (getN (setN (setN s.bd q ⟨(getN s.bd p).value * 2, true⟩) p Cell.empty) r).combined
            = true →
          (getN (setN (setN s.bd q ⟨(getN s.bd p).value * 2, true⟩) p Cell.empty) r).value
            ≠ 0 := by
      intro r hr
      by_cases hrp : r = p
      · rw [hrp, getN_setN_self _ _ _ hp] at hr
        cases hr
      · rw [getN_setN_ne _ _ _ _ hrp] at hr ⊢
        by_cases hrq : r = q
        · rw [hrq, getN_setN_self _ _ _ hqB] at hr ⊢
          dsimp only
          omega
        · rw [getN_setN_ne _ _ _ _ hrq] at hr ⊢
          exact hD r hr
    rcases hsub with ⟨hcp, hstep⟩ | ⟨hcp, hstep⟩
    · rw [hstep]
      exact ⟨hA1, hB1, hC1, hD1⟩
    · rw [hstep]
      unfold evsInv
      dsimp only
      have hgpE : getN (setN (setN s.bd q ⟨(getN s.bd p).value * 2, true⟩) p Cell.empty) p
          = Cell.empty := getN_setN_self _ _ _ hp
      have hgc : (getN (setN (setN s.bd q ⟨(getN s.bd p).value * 2, true⟩) p Cell.empty) c).value
          = 0 := by
        rw [getN_setN_ne _ _ _ _ hcp, getN_setN_ne _ _ _ _ (Ne.symm hqc)]
        exact hcv hcp
      refine ⟨hA1, ?_, hC1, ?_⟩
      · intro e he
        have hecT := hB1 e he
        have hec : e ≠ c := fun hec => hD1 e hecT (hec ▸ hgc)
        have hep : e ≠ p := by
          rcases List.mem_cons.mp he with rfl | he'
          · exact hqp
          · exact hCp e he'
        rw [getN_setN_ne _ _ _ _ hep, getN_setN_ne _ _ _ _ hec]
        exact hecT
      · intro r hr
        by_cases hrp : r = p
        · rw [hrp, getN_setN_self _ _ _ hp] at hr
          cases hr
        · rw [getN_setN_ne _ _ _ _ hrp] at hr ⊢
          by_cases hrc : r = c
          · rw [hrc, getN_setN_self _ _ _ hcB, hgpE] at hr
            cases hr
          · rw [getN_setN_ne _ _ _ _ hrc] at hr ⊢
            exact hD1 r hr

theorem foldl_stepD_evsInv {nx : Pos → Option Pos} {l m : Pos → Nat} (h : DirOK nx l m) :
    ∀ (L : List Pos) (s : SlideS), (∀ r ∈ L, inB r) →
      L.Pairwise (fun a r => l r = l a → m r < m a) → evsInv L s →
      evsInv [] (L.foldl (stepD nx) s) := by
  intro L
  induction L with
  | nil => intro s _ _ hI; exact hI
  | cons a L ih =>
    intro s hB hPW hI
    rw [List.foldl_cons]
    have ha : inB a := hB a (List.mem_cons_self a L)
    obtain ⟨hhead, htail⟩ := List.pairwise_cons.mp hPW
    exact ih (stepD nx s a) (fun r hr => hB r (List.mem_cons_of_mem a hr)) htail
      (stepD_evsInv h L s a ha hhead hI)

theorem evsInv_init (b : Board) (L : List Pos) (h : ClearBF b) :
    evsInv L ⟨b, 0, []⟩ := by
  refine ⟨List.nodup_nil, ?_, ?_, ?_⟩
  · intro e he; cases he
  · intro e he; cases he
  · intro r hr
    rw [ClearBF_getN h r] at hr
    cases hr

theorem orderR_pw : orderR.Pairwise (fun a r => Prod.fst r = Prod.fst a →
    Prod.snd r < Prod.snd a) := by decide

theorem orderL_pw : orderL.Pairwise (fun a r => Prod.fst r = Prod.fst a →
    3 - Prod.snd r < 3 - Prod.snd a) := by decide

theorem orderD_pw : orderD.Pairwise (fun a r => Prod.snd r = Prod.snd a →
    Prod.fst r < Prod.fst a) := by decide

theorem orderU_pw : orderU.Pairwise (fun a r => Prod.snd r = Prod.snd a →
    3 - Prod.fst r < 3 - Prod.fst a) := by decide

theorem slide_right_nodup (b : Board) (h : ClearBF b) : (slide_right b).evs.Nodup :=
  (foldl_stepD_evsInv dirOK_R orderR ⟨b, 0, []⟩ orderR_inB orderR_pw
    (evsInv_init b orderR h)).1

theorem slide_left_nodup (b : Board) (h : ClearBF b) : (slide_left b).evs.Nodup :=
  (foldl_stepD_evsInv dirOK_L orderL ⟨b, 0, []⟩ orderL_inB orderL_pw
    (evsInv_init b orderL h)).1

theorem slide_down_nodup (b : Board) (h : ClearBF b) : (slide_down b).evs.Nodup :=
  (foldl_stepD_evsInv dirOK_D orderD ⟨b, 0, []⟩ orderD_inB orderD_pw
    (evsInv_init b orderD h)).1

theorem slide_up_nodup (b : Board) (h : ClearBF b) : (slide_up b).evs.Nodup :=
  (foldl_stepD_evsInv dirOK_U orderU ⟨b, 0, []⟩ orderU_inB orderU_pw
    (evsInv_init b orderU h)).1

/-! Power-of-two invariant. -/

theorem stepD_pow2 {nx : Pos → Option Pos} {l m : Pos → Nat} (h : DirOK nx l m)
    (s : SlideS) (p : Pos) (hp : inB p) (hI : Pow2Cells s.bd) :
    Pow2Cells (stepD nx s p).bd := by
  by_cases h0 : (getN s.bd p).value = 0
  · rw [stepD_skip nx s p h0]
    exact hI
  obtain ⟨c, hcB, hcl, hcm, hcv, hcase⟩ := stepD_anatomy h s p hp h0
  rcases hcase with hstep | ⟨hcp, hstep⟩ | ⟨q, hnx, hqB, hql, hqm, hqp, hqc, hveq, hqcomb,
    hpcomb, hsub⟩
  · rw [hstep]
    exact hI
  · rw [hstep]
    dsimp only
    intro r hr
    by_cases hrp : r = p
    · rw [hrp, getN_setN_self _ _ _ hp] at hr
      exact absurd Cell.empty_value hr
    · rw [getN_setN_ne _ _ _ _ hrp] at hr ⊢
      by_cases hrc : r = c
      · rw [hrc, getN_setN_self _ _ _ hcB] at hr ⊢
        exact hI p h0
      · rw [getN_setN_ne _ _ _ _ hrc] at hr ⊢
        exact hI r hr
  · have hq2 : ∀ r : Pos,
        (getN (setN (setN s.bd q ⟨(getN s.bd p).value * 2, true⟩) p Cell.empty) r).value ≠ 0 →
        ∃ k, 1 ≤ k ∧
          (getN (setN (setN s.bd q ⟨(getN s.bd p).value * 2, true⟩) p Cell.empty) r).value
            = 2 ^ k := by
      intro r hr
      by_cases hrp : r = p
      · rw [hrp, getN_setN_self _ _ _ hp] at hr
        exact absurd Cell.empty_value hr
      · rw [getN_setN_ne _ _ _ _ hrp] at hr ⊢
        by_cases hrq : r = q
        · rw [hrq, getN_setN_self _ _ _ hqB] at hr ⊢
          obtain ⟨k, hk1, hk⟩ := hI p h0
          refine ⟨k + 1, by omega, ?_⟩
          dsimp only
          rw [hk, pow_succ]
        · rw [getN_setN_ne _ _ _ _ hrq] at hr ⊢
          exact hI r hr
    rcases hsub with ⟨hcp, hstep⟩ | ⟨hcp, hstep⟩
    · rw [hstep]
      exact hq2
    · rw [hstep]
      dsimp only
      have hgpE : getN (setN (setN s.bd q ⟨(getN s.bd p).value * 2, true⟩) p Cell.empty) p
          = Cell.empty := getN_setN_self _ _ _ hp
      intro r hr
      by_cases hrp : r = p
      · rw [hrp, getN_setN_self _ _ _ hp] at hr
        exact absurd Cell.empty_value hr
      · rw [getN_setN_ne _ _ _ _ hrp] at hr ⊢
        by_cases hrc : r = c
        · rw [hrc, getN_setN_self _ _ _ hcB, hgpE] at hr
          exact absurd Cell.empty_value hr
        · rw [getN_setN_ne _ _ _ _ hrc] at hr ⊢
          exact hq2 r hr

theorem foldl_stepD_pow2 {nx : Pos → Option Pos} {l m : Pos → Nat} (h : DirOK nx l m) :
    ∀ (L : List Pos) (s : SlideS), (∀ r ∈ L, inB r) → Pow2Cells s.bd →
      Pow2Cells (L.foldl (stepD nx) s).bd := by
  intro L
  induction L with
  | nil => intro s _ hI; exact hI
  | cons a L ih =>
    intro s hB hI
    rw [List.foldl_cons]
    exact ih (stepD nx s a) (fun r hr => hB r (List.mem_cons_of_mem a hr))
      (stepD_pow2 h s a (hB a (List.mem_cons_self a L)) hI)

theorem slide_right_pow2 (b : Board) (h : Pow2Cells b) : Pow2Cells (slide_right b).bd :=
  foldl_stepD_pow2 dirOK_R orderR ⟨b, 0, []⟩ orderR_inB h

theorem slide_left_pow2 (b : Board) (h : Pow2Cells b) : Pow2Cells (slide_left b).bd :=
  foldl_stepD_pow2 dirOK_L orderL ⟨b, 0, []⟩ orderL_inB h

theorem slide_down_pow2 (b : Board) (h : Pow2Cells b) : Pow2Cells (slide_down b).bd :=
  foldl_stepD_pow2 dirOK_D orderD ⟨b, 0, []⟩ orderD_inB h

theorem slide_up_pow2 (b : Board) (h : Pow2Cells b) : Pow2Cells (slide_up b).bd :=
  foldl_stepD_pow2 dirOK_U orderU ⟨b, 0, []⟩ orderU_inB h

theorem getN_clearFlags (b : Board) (p : Pos) :
    (getN (clearFlags b) p).value = (getN b p).value := by
  unfold getN clearFlags
  split <;> rfl

theorem clearFlags_pow2 (b : Board) (h : Pow2Cells b) : Pow2Cells (clearFlags b) := by
  intro r hr
  rw [getN_clearFlags] at hr ⊢
  exact h r hr

/-! Spawn, turn and reset lemmas. -/

theorem getN_pos (b : Board) (r : Pos) (hB : r.1 < 4 ∧ r.2 < 4) :
    getN b r = b (⟨r.1, hB.1⟩, ⟨r.2, hB.2⟩) := dif_pos hB

theorem getN_oob (b : Board) (r : Pos) (hB : ¬ (r.1 < 4 ∧ r.2 < 4)) :
    getN b r = Cell.empty := dif_neg hB

theorem getN_update (b : Board) (z : Fin 4 × Fin 4) (c : Cell) (r : Pos) :
    getN (Function.update b z c) r =
      if r = (z.1.val, z.2.val) then c else getN b r := by
  by_cases hB : r.1 < 4 ∧ r.2 < 4
  · rw [getN_pos _ _ hB, getN_pos _ _ hB]
    by_cases hrz : r = (z.1.val, z.2.val)
    · rw [if_pos hrz]
      have hfin : (⟨r.1, hB.1⟩, ⟨r.2, hB.2⟩) = z := by
        rw [Prod.ext_iff] at hrz ⊢
        exact ⟨Fin.ext hrz.1, Fin.ext hrz.2⟩
      rw [hfin, Function.update_same]
    · rw [if_neg hrz, Function.update_noteq]
      intro hcon
      apply hrz
      rw [Prod.ext_iff] at hcon ⊢
      exact ⟨congrArg Fin.val hcon.1, congrArg Fin.val hcon.2⟩
  · have hne : r ≠ (z.1.val, z.2.val) := by
      intro hcon
      apply hB
      rw [hcon]
      exact ⟨z.1.isLt, z.2.isLt⟩
    rw [if_neg hne, getN_oob _ _ hB, getN_oob _ _ hB]

theorem pow2Cells_of_fin (b : Board)
    (h : ∀ z : Fin 4 × Fin 4, (b z).value ≠ 0 → ∃ k, 1 ≤ k ∧ (b z).value = 2 ^ k) :
    Pow2Cells b := by
  intro r hr
  by_cases hB : r.1 < 4 ∧ r.2 < 4
  · rw [getN_pos _ _ hB] at hr ⊢
    exact h _ hr
  · rw [getN_oob _ _ hB] at hr
    exact absurd Cell.empty_value hr

theorem spawnVal_cases (r : Nat) : spawnVal r = 2 ∨ spawnVal r = 4 := by
  unfold spawnVal
  rcases Nat.mod_two_eq_zero_or_one r with h | h <;> rw [h]
  · left; norm_num
  · right; norm_num

theorem spawnVal_ne_zero (r : Nat) : spawnVal r ≠ 0 := by
  rcases spawnVal_cases r with h | h <;> omega

theorem spawnVal_pow2 (r : Nat) : ∃ k, 1 ≤ k ∧ spawnVal r = 2 ^ k :=
  ⟨r % 2 + 1, by omega, rfl⟩

theorem spawnLoop_some (b : Board) (v : Nat) :
    ∀ (cands : List (Fin 4 × Fin 4)) (b' : Board), spawnLoop b v cands = some b' →
      ∃ z : Fin 4 × Fin 4, (b z).value = 0 ∧ b' = Function.update b z (Cell.occupied v) := by
  intro cands
  induction cands with
  | nil => intro b' h; cases h
  | cons z rest ih =>
    intro b' h
    unfold spawnLoop at h
    by_cases hz : (b z).value = 0
    · rw [if_pos hz] at h
      exact ⟨z, hz, (Option.some_inj.mp h).symm⟩
    · rw [if_neg hz] at h
      exact ih b' h

theorem occCount_update (b : Board) (z : Fin 4 × Fin 4) (c : Cell) :
    occCount (Function.update b z c) + occ01 (b z) = occCount b + occ01 c :=
  sumG_update occ01 b z c

theorem turn_eq_dir (b : Board) (sc : Nat) (d : Dir) (cands : List (Fin 4 × Fin 4))
    (r : Nat) :
    turn b sc State.Playing (some d) cands r =
      (if hasEmptyCell (clearFlags (slideOf d b).bd) then
        match spawnLoop (clearFlags (slideOf d b).bd) (spawnVal r) cands with
        | some b2 => some (b2, sc + (slideOf d b).delta, State.Playing)
        | none => none
      else some (clearFlags (slideOf d b).bd, sc + (slideOf d b).delta,
        State.GameOwover)) := by
  unfold turn
  rw [if_pos rfl]
  rfl

theorem randomCellsGo_spec (num : Nat) :
    ∀ (cands : List ((Fin 4 × Fin 4) × Nat)) (generated : Nat) (b bout : Board),
      generated ≤ num →
      occCount b = generated →
      (∀ z : Fin 4 × Fin 4, (b z).value ≠ 0 → (b z).value = 2 ∨ (b z).value = 4) →
      randomCellsGo num generated b cands = some bout →
      occCount bout = num ∧
        (∀ z : Fin 4 × Fin 4, (bout z).value ≠ 0 → (bout z).value = 2 ∨ (bout z).value = 4) := by
  intro cands
  induction cands with
  | nil =>
    intro gen b bout hle hocc hvals h
    unfold randomCellsGo at h
    split at h
    · obtain rfl := Option.some_inj.mp h
      exact ⟨by omega, hvals⟩
    · cases h
  | cons zr rest ih =>
    obtain ⟨z, r⟩ := zr
    intro gen b bout hle hocc hvals h
    unfold randomCellsGo at h
    by_cases hstop : num ≤ gen
    · rw [if_pos hstop] at h
      obtain rfl := Option.some_inj.mp h
      exact ⟨by omega, hvals⟩
    · rw [if_neg hstop] at h
      by_cases hz : (b z).value = 0
      · rw [if_pos hz] at h
        have hocc' : occCount (Function.update b z (Cell.occupied (spawnVal r))) = gen + 1 := by
          have := occCount_update b z (Cell.occupied (spawnVal r))
          rw [occ01_zero hz, occ01_pos (show ¬ (Cell.occupied (spawnVal r)).value = 0 from
            spawnVal_ne_zero r)] at this
          omega
        have hvals' : ∀ w : Fin 4 × Fin 4,
            ((Function.update b z (Cell.occupied (spawnVal r))) w).value ≠ 0 →
            ((Function.update b z (Cell.occupied (spawnVal r))) w).value = 2 ∨
              ((Function.update b z (Cell.occupied (spawnVal r))) w).value = 4 := by
          intro w hw
          by_cases hwz : w = z
          · rw [hwz, Function.update_same] at hw ⊢
            exact spawnVal_cases r
          · rw [Function.update_noteq hwz] at hw ⊢
            exact hvals w hw
        exact ih (gen + 1) _ bout (by omega) hocc' hvals' h
      · rw [if_neg hz] at h
        exact ih gen b bout hle hocc hvals h

theorem random_cells_spec (num : Nat) (cands : List ((Fin 4 × Fin 4) × Nat)) (bout : Board)
    (h : random_cells num cands = some bout) :
    occCount bout = num ∧
      (∀ z : Fin 4 × Fin 4, (bout z).value ≠ 0 → (bout z).value = 2 ∨ (bout z).value = 4) := by
  have h0 : occCount (fun _ : Fin 4 × Fin 4 => Cell.empty) = 0 := by decide
  exact randomCellsGo_spec num cands 0 _ bout (Nat.zero_le num) h0
    (fun z hz => absurd Cell.empty_value hz) h

/-! Remaining turn lemmas and invariant plumbing. -/

theorem turn_eq_notPlaying (b : Board) (sc : Nat) (st : State) (inp : Option Dir)
    (cands : List (Fin 4 × Fin 4)) (r : Nat) (hst : ¬ st = State.Playing) :
    turn b sc st inp cands r = some (b, sc, st) := by
  unfold turn
  rw [if_neg hst]

theorem turn_eq_noInput (b : Board) (sc : Nat) (cands : List (Fin 4 × Fin 4)) (r : Nat) :
    turn b sc State.Playing none cands r = some (clearFlags b, sc, State.Playing) := by
  unfold turn
  rw [if_pos rfl]
  rfl

theorem update_spawn_pow2 (b : Board) (z : Fin 4 × Fin 4) (v : Nat)
    (hv : ∃ k, 1 ≤ k ∧ v = 2 ^ k) (hb : Pow2Cells b) :
    Pow2Cells (Function.update b z (Cell.occupied v)) := by
  intro r hr
  rw [getN_update] at hr ⊢
  by_cases hrz : r = (z.1.val, z.2.val)
  · rw [if_pos hrz] at hr ⊢
    exact hv
  · rw [if_neg hrz] at hr ⊢
    exact hb r hr

theorem random_cells_pow2 (num : Nat) (cands : List ((Fin 4 × Fin 4) × Nat)) (b0 : Board)
    (h : random_cells num cands = some b0) : Pow2Cells b0 := by
  obtain ⟨-, hvals⟩ := random_cells_spec num cands b0 h
  apply pow2Cells_of_fin
  intro z hz
  rcases hvals z hz with h2 | h4
  · exact ⟨1, le_refl 1, by rw [h2]; norm_num⟩
  · exact ⟨2, by omega, by rw [h4]; norm_num⟩

theorem slideOf_pow2 (d : Dir) (b : Board) (h : Pow2Cells b) :
    Pow2Cells (slideOf d b).bd := by
  cases d
  · exact slide_right_pow2 b h
  · exact slide_left_pow2 b h
  · exact slide_down_pow2 b h
  · exact slide_up_pow2 b h

theorem turn_pow2 (b : Board) (sc : Nat) (st : State) (inp : Option Dir)
    (cands : List (Fin 4 × Fin 4)) (r : Nat) (bres : Board) (scres : Nat) (stres : State)
    (hb : Pow2Cells b) (h : turn b sc st inp cands r = some (bres, scres, stres)) :
    Pow2Cells bres := by
  by_cases hst : st = State.Playing
  · subst hst
    cases inp with
    | none =>
      rw [turn_eq_noInput] at h
      obtain ⟨rfl, -⟩ := Prod.mk.injEq .. ▸ Option.some_inj.mp h
      exact clearFlags_pow2 b hb
    | some d =>
      rw [turn_eq_dir] at h
      have hb1 : Pow2Cells (clearFlags (slideOf d b).bd) :=
        clearFlags_pow2 _ (slideOf_pow2 d b hb)
      by_cases hemp : hasEmptyCell (clearFlags (slideOf d b).bd) = true
      · rw [if_pos hemp] at h
        cases hsp : spawnLoop (clearFlags (slideOf d b).bd) (spawnVal r) cands with
        | none => rw [hsp] at h; cases h
        | some b2 =>
          rw [hsp] at h
          obtain ⟨rfl, -⟩ := Prod.mk.injEq .. ▸ Option.some_inj.mp h
          obtain ⟨z, hz, rfl⟩ := spawnLoop_some _ _ cands b2 hsp
          exact update_spawn_pow2 _ z _ (spawnVal_pow2 r) hb1
      · rw [if_neg hemp] at h
        obtain ⟨rfl, -⟩ := Prod.mk.injEq .. ▸ Option.some_inj.mp h
        exact hb1
  · rw [turn_eq_notPlaying b sc st inp cands r hst] at h
    obtain ⟨rfl, -⟩ := Prod.mk.injEq .. ▸ Option.some_inj.mp h
    exact hb

/-! Friction lemmas. -/

theorem decrease_abs_spec (x a : ℚ) (ha : 0 ≤ a) :
    |decrease_abs x a| ≤ |x| ∧
      (decrease_abs x a = 0 ∨ (0 < x ∧ 0 < decrease_abs x a) ∨
        (x < 0 ∧ decrease_abs x a < 0)) := by
  unfold decrease_abs
  split_ifs with h1 h2 h3 h4
  · exact ⟨by rw [abs_zero]; exact abs_nonneg x, Or.inl rfl⟩
  · constructor
    · rw [abs_of_nonneg (by linarith : (0:ℚ) ≤ x - a), abs_of_pos h1]
      linarith
    · rcases eq_or_lt_of_le (not_lt.mp h2) with heq | hlt
      · exact Or.inl heq.symm
      · exact Or.inr (Or.inl ⟨h1, hlt⟩)
  · exact ⟨by rw [abs_zero]; exact abs_nonneg x, Or.inl rfl⟩
  · constructor
    · rw [abs_of_nonpos (not_lt.mp h4), abs_of_neg h3]
      linarith
    · rcases eq_or_lt_of_le (not_lt.mp h4) with heq | hlt
      · exact Or.inl heq
      · exact Or.inr (Or.inr ⟨h3, hlt⟩)
  · exact ⟨by rw [abs_zero]; exact abs_nonneg x, Or.inl rfl⟩

theorem decrease_abs_nonneg (x a : ℚ) (ha : 0 ≤ a) (hx : 0 ≤ x) :
    0 ≤ decrease_abs x a := by
  rcases (decrease_abs_spec x a ha).2 with h | ⟨-, h⟩ | ⟨h, -⟩
  · rw [h]
  · exact le_of_lt h
  · linarith

theorem decrease_abs_nonpos (x a : ℚ) (ha : 0 ≤ a) (hx : x ≤ 0) :
    decrease_abs x a ≤ 0 := by
  rcases (decrease_abs_spec x a ha).2 with h | ⟨h, -⟩ | ⟨-, h⟩
  · rw [h]
  · linarith
  · exact le_of_lt h

theorem tick_vel_x (p : ParticleM) (dt : ℚ) :
    (p.tick dt).vel_x = decrease_abs p.vel_x (PARTICLE_FRICTION * dt) := rfl

theorem tick_vel_y (p : ParticleM) (dt : ℚ) :
    (p.tick dt).vel_y = decrease_abs p.vel_y (PARTICLE_FRICTION * dt) := rfl

theorem friction_dt_nonneg (dt : ℚ) (hdt : 0 ≤ dt) : 0 ≤ PARTICLE_FRICTION * dt :=
  mul_nonneg (by norm_num [PARTICLE_FRICTION]) hdt

theorem ticks_vel : ∀ (dts : List ℚ), (∀ d ∈ dts, 0 ≤ d) → ∀ p : ParticleM,
    |(p.ticks dts).vel_x| ≤ |p.vel_x| ∧ |(p.ticks dts).vel_y| ≤ |p.vel_y| ∧
      (0 ≤ p.vel_x → 0 ≤ (p.ticks dts).vel_x) ∧
      (p.vel_x ≤ 0 → (p.ticks dts).vel_x ≤ 0) ∧
      (0 ≤ p.vel_y → 0 ≤ (p.ticks dts).vel_y) ∧
      (p.vel_y ≤ 0 → (p.ticks dts).vel_y ≤ 0) := by
  intro dts
  induction dts with
  | nil =>
    intro _ p
    exact ⟨le_refl _, le_refl _, fun h => h, fun h => h, fun h => h, fun h => h⟩
  | cons dt rest ih =>
    intro h p
    have hdt : 0 ≤ dt := h dt (List.mem_cons_self _ _)
    have ha := friction_dt_nonneg dt hdt
    have hrest := ih (fun d hd => h d (List.mem_cons_of_mem _ hd)) (p.tick dt)
    have hx := decrease_abs_spec p.vel_x (PARTICLE_FRICTION * dt) ha
    have hy := decrease_abs_spec p.vel_y (PARTICLE_FRICTION * dt) ha
    have hticks : p.ticks (dt :: rest) = (p.tick dt).ticks rest := rfl
    rw [hticks]
    refine ⟨le_trans hrest.1 (by rw [tick_vel_x]; exact hx.1),
      le_trans hrest.2.1 (by rw [tick_vel_y]; exact hy.1), ?_, ?_, ?_, ?_⟩
    · intro hp
      exact hrest.2.2.1 (by rw [tick_vel_x]; exact decrease_abs_nonneg _ _ ha hp)
    · intro hp
      exact hrest.2.2.2.1 (by rw [tick_vel_x]; exact decrease_abs_nonpos _ _ ha hp)
    · intro hp
      exact hrest.2.2.2.2.1 (by rw [tick_vel_y]; exact decrease_abs_nonneg _ _ ha hp)
    · intro hp
      exact hrest.2.2.2.2.2 (by rw [tick_vel_y]; exact decrease_abs_nonpos _ _ ha hp)

/-! Claim theorems. -/

/-- C1: the claim says a frame whose slide produces zero displacement and
zero merges spawns nothing and changes nothing, reporting `moved = false`.
The code sets `moved` on the key release alone (its own TODO comment admits
it): at a board with a single 2 resting at the right edge, the Right slide
moves nothing, merges nothing and scores 0, yet the frame reports
`moved = true` and spawns a tile at the drawn cell (0,0), growing the
occupied count from 1 to 2. -/
theorem C1_no_move_still_spawns_bug :
    (slide_right bStuck1).bd = bStuck1 ∧ (slide_right bStuck1).delta = 0 ∧
      (slide_right bStuck1).evs = [] ∧
      movedFlag (some Dir.right) = true ∧
      turn bStuck1 0 State.Playing (some Dir.right) [((0 : Fin 4), (0 : Fin 4))] 0 =
        some (Function.update (clearFlags (slideOf Dir.right bStuck1).bd)
          ((0 : Fin 4), (0 : Fin 4)) (Cell.occupied 2), 0, State.Playing) ∧
      occCount (Function.update (clearFlags (slideOf Dir.right bStuck1).bd)
          ((0 : Fin 4), (0 : Fin 4)) (Cell.occupied 2)) = occCount bStuck1 + 1 := by
  decide

/-- C2 counterexample: the claim says board sum before minus board sum
after a slide equals the score delta.  Sliding `[2,2,_,_]` right merges
once: the sums before and after are both 4, so their difference is 0, but
the returned score delta is 4. -/
theorem C2_counterexample :
    ¬ (boardSum b22 - boardSum (slide_right b22).bd = (slide_right b22).delta) := by
  decide

/-- C2 amended: a merge doubles one cell and zeroes the other, so every
slide in every direction leaves the total of all tile values unchanged —
the sum before minus the sum after is 0, not the score delta. -/
theorem C2_board_sum_invariant (b : Board) :
    boardSum (slide_right b).bd = boardSum b ∧ boardSum (slide_left b).bd = boardSum b ∧
      boardSum (slide_down b).bd = boardSum b ∧ boardSum (slide_up b).bd = boardSum b :=
  ⟨(slide_right_conserve b).1, (slide_left_conserve b).1,
   (slide_down_conserve b).1, (slide_up_conserve b).1⟩

theorem C2_board_sum_invariant_witness :
    boardSum (slide_right b22).bd = boardSum b22 :=
  (C2_board_sum_invariant b22).1

/-- C3: in a Playing frame whose slide moved at least one tile, if the
post-slide board has an empty cell then exactly one tile of value 2 or 4
is written to an empty cell (never over an occupied one) and the state
stays Playing; with no empty cell the state becomes GameOwover. -/
theorem C3_spawn_or_gameover (b : Board) (sc : Nat) (d : Dir)
    (cands : List (Fin 4 × Fin 4)) (r : Nat) (bres : Board) (scres : Nat) (stres : State)
    (hmoved : (slideOf d b).bd ≠ b)
    (hres : turn b sc State.Playing (some d) cands r = some (bres, scres, stres)) :
    (hasEmptyCell (clearFlags (slideOf d b).bd) = true →
      stres = State.Playing ∧
        ∃ z : Fin 4 × Fin 4, ((clearFlags (slideOf d b).bd) z).value = 0 ∧
          bres = Function.update (clearFlags (slideOf d b).bd) z
            (Cell.occupied (spawnVal r)) ∧
          (spawnVal r = 2 ∨ spawnVal r = 4) ∧
          occCount bres = occCount (clearFlags (slideOf d b).bd) + 1) ∧
    (hasEmptyCell (clearFlags (slideOf d b).bd) = false →
      stres = State.GameOwover ∧ bres = clearFlags (slideOf d b).bd) := by
  rw [turn_eq_dir] at hres
  by_cases hemp : hasEmptyCell (clearFlags (slideOf d b).bd) = true
  · rw [if_pos hemp] at hres
    constructor
    · intro _
      cases hsp : spawnLoop (clearFlags (slideOf d b).bd) (spawnVal r) cands with
      | none => rw [hsp] at hres; cases hres
      | some b2 =>
        rw [hsp] at hres
        have h3 := Option.some_inj.mp hres
        obtain ⟨hb, hsc, hst⟩ : b2 = bres ∧ sc + (slideOf d b).delta = scres ∧
            State.Playing = stres := by
          rw [Prod.ext_iff, Prod.ext_iff] at h3
          exact ⟨h3.1, h3.2.1, h3.2.2⟩
        obtain ⟨z, hz, hup⟩ := spawnLoop_some _ _ cands b2 hsp
        subst hb
        refine ⟨hst.symm, z, hz, hup, spawnVal_cases r, ?_⟩
        rw [hup]
        have := occCount_update (clearFlags (slideOf d b).bd) z
          (Cell.occupied (spawnVal r))
        rw [occ01_zero hz, occ01_pos (spawnVal_ne_zero r)] at this
        omega
    · intro hfalse
      rw [hfalse] at hemp
      cases hemp
  · rw [if_neg hemp] at hres
    have h3 := Option.some_inj.mp hres
    obtain ⟨hb, hsc, hst⟩ : clearFlags (slideOf d b).bd = bres ∧
        sc + (slideOf d b).delta = scres ∧ State.GameOwover = stres := by
      rw [Prod.ext_iff, Prod.ext_iff] at h3
      exact ⟨h3.1, h3.2.1, h3.2.2⟩
    constructor
    · intro htrue
      exact absurd htrue hemp
    · intro _
      exact ⟨hst.symm, hb.symm⟩

theorem C3_spawn_or_gameover_witness :
    State.Playing = State.Playing ∧
      ∃ z : Fin 4 × Fin 4, ((clearFlags (slideOf Dir.right b22).bd) z).value = 0 ∧
        Function.update (clearFlags (slideOf Dir.right b22).bd)
            ((0 : Fin 4), (0 : Fin 4)) (Cell.occupied (spawnVal 0)) =
          Function.update (clearFlags (slideOf Dir.right b22).bd) z
            (Cell.occupied (spawnVal 0)) ∧
        (spawnVal 0 = 2 ∨ spawnVal 0 = 4) ∧
        occCount (Function.update (clearFlags (slideOf Dir.right b22).bd)
            ((0 : Fin 4), (0 : Fin 4)) (Cell.occupied (spawnVal 0))) =
          occCount (clearFlags (slideOf Dir.right b22).bd) + 1 :=
  (C3_spawn_or_gameover b22 0 Dir.right [((0 : Fin 4), (0 : Fin 4))] 0
      (Function.update (clearFlags (slideOf Dir.right b22).bd)
        ((0 : Fin 4), (0 : Fin 4)) (Cell.occupied (spawnVal 0)))
      4 State.Playing (by decide) (by decide)).1 (by decide)

/-- C4: the claim says a slide in a direction where nothing can move or
merge leaves the board byte-for-byte identical and reports `moved = false`.
At row 0 = `[_,_,2,4]` sliding right, the board (values and merge flags) is
indeed unchanged and the score delta is 0, but the code's `moved` flag is
keypress-driven: it reports true and the frame spawns a tile anyway. -/
theorem C4_idempotent_but_moved_bug :
    (slide_right bStuck2).bd = bStuck2 ∧ (slide_right bStuck2).delta = 0 ∧
      (slide_right bStuck2).evs = [] ∧
      movedFlag (some Dir.right) = true ∧
      turn bStuck2 0 State.Playing (some Dir.right) [((0 : Fin 4), (0 : Fin 4))] 0 =
        some (Function.update (clearFlags (slideOf Dir.right bStuck2).bd)
          ((0 : Fin 4), (0 : Fin 4)) (Cell.occupied 2), 0, State.Playing) ∧
      Function.update (clearFlags (slideOf Dir.right bStuck2).bd)
          ((0 : Fin 4), (0 : Fin 4)) (Cell.occupied 2) ≠ bStuck2 := by
  decide

/-- C5: starting from any board whose merge flags are all clear, one slide
call never merges twice into the same cell (the recorded merge-event
destinations are pairwise distinct) in any direction; and concretely, row
`[2,2,2,_]` sliding right gives `[_,_,2,4]` — one merge at the edge cell,
the third tile unmerged and adjacent. -/
theorem C5_no_double_merge (b : Board) (h : ClearBF b) :
    (slide_right b).evs.Nodup ∧ (slide_left b).evs.Nodup ∧
      (slide_down b).evs.Nodup ∧ (slide_up b).evs.Nodup ∧
      ((slide_right b222).bd = b222out ∧ (slide_right b222).delta = 4 ∧
        (slide_right b222).evs = [((0 : Nat), (3 : Nat))]) :=
  ⟨slide_right_nodup b h, slide_left_nodup b h, slide_down_nodup b h,
   slide_up_nodup b h, by decide⟩

theorem C5_no_double_merge_witness :
    ClearBF b222 ∧ (slide_right b222).evs.Nodup :=
  ⟨by decide, (C5_no_double_merge b222 (by decide)).1⟩

/-- C6: the end-to-end scenario: on a board empty except row 0 =
`[2,2,4,4]`, sliding left yields row 0 = `[4,8,0,0]` with all other cells
empty, returns score delta 12, and fires exactly two merge events, at
columns 0 and 1 of row 0. -/
theorem C6_end_to_end :
    (slide_left b2244).bd = b2244out ∧ (slide_left b2244).delta = 12 ∧
      (slide_left b2244).evs = [((0 : Nat), (1 : Nat)), ((0 : Nat), (0 : Nat))] := by
  decide

/-- C7: after a (successful) reset with the seed count drawn from
`2..=3`, the board holds exactly 2 or 3 occupied cells, each of value 2 or
4, the score is 0, the state is Playing and the particle list is empty. -/
theorem C7_reset_spec (g : GameState) (num : Nat) (cands : List ((Fin 4 × Fin 4) × Nat))
    (gres : GameState) (hnum1 : 2 ≤ num) (hnum2 : num ≤ 3)
    (h : GameState.reset g num cands = some gres) :
    (occCount gres.cells = 2 ∨ occCount gres.cells = 3) ∧
      (∀ z : Fin 4 × Fin 4, (gres.cells z).value ≠ 0 →
        (gres.cells z).value = 2 ∨ (gres.cells z).value = 4) ∧
      gres.score = 0 ∧ gres.state = State.Playing ∧ gres.particles = [] := by
  unfold GameState.reset at h
  cases hrc : random_cells num cands with
  | none => rw [hrc] at h; cases h
  | some b =>
    rw [hrc] at h
    obtain rfl := Option.some_inj.mp h
    obtain ⟨hocc, hvals⟩ := random_cells_spec num cands b hrc
    exact ⟨by dsimp only; omega, hvals, rfl, rfl, rfl⟩

theorem C7_reset_spec_witness :
    (occCount (Function.update (Function.update (fun _ => Cell.empty)
        ((0 : Fin 4), (0 : Fin 4)) (Cell.occupied (spawnVal 0)))
        ((1 : Fin 4), (1 : Fin 4)) (Cell.occupied (spawnVal 1))) = 2 ∨
      occCount (Function.update (Function.update (fun _ => Cell.empty)
        ((0 : Fin 4), (0 : Fin 4)) (Cell.occupied (spawnVal 0)))
        ((1 : Fin 4), (1 : Fin 4)) (Cell.occupied (spawnVal 1))) = 3) :=
  (C7_reset_spec GameState.new 2
    [(((0 : Fin 4), (0 : Fin 4)), 0), (((1 : Fin 4), (1 : Fin 4)), 1)]
    ⟨Function.update (Function.update (fun _ => Cell.empty)
        ((0 : Fin 4), (0 : Fin 4)) (Cell.occupied (spawnVal 0)))
        ((1 : Fin 4), (1 : Fin 4)) (Cell.occupied (spawnVal 1)),
      0, State.Playing, []⟩
    (by omega) (by omega) rfl).1

/-- C8: the predicate "every occupied cell's value is a power of two at
least 2" holds on every board produced by reset, and is preserved by every
slide (a merge doubles a power of two), by every spawn (which writes 2 or
4), and hence by every whole frame of the turn state machine. -/
theorem C8_pow2_invariant (b : Board) (hb : Pow2Cells b) :
    Pow2Cells (slide_right b).bd ∧ Pow2Cells (slide_left b).bd ∧
      Pow2Cells (slide_down b).bd ∧ Pow2Cells (slide_up b).bd ∧
      (∀ num cands b0, random_cells num cands = some b0 → Pow2Cells b0) ∧
      (∀ cands r b', spawnLoop b (spawnVal r) cands = some b' → Pow2Cells b') ∧
      (∀ sc st inp cands r bres scres stres,
        turn b sc st inp cands r = some (bres, scres, stres) → Pow2Cells bres) := by
  refine ⟨slide_right_pow2 b hb, slide_left_pow2 b hb, slide_down_pow2 b hb,
    slide_up_pow2 b hb, random_cells_pow2, ?_, ?_⟩
  · intro cands r b' hsp
    obtain ⟨z, hz, rfl⟩ := spawnLoop_some _ _ cands b' hsp
    exact update_spawn_pow2 _ z _ (spawnVal_pow2 r) hb
  · intro sc st inp cands r bres scres stres h
    exact turn_pow2 b sc st inp cands r bres scres stres hb h

theorem C8_pow2_invariant_witness :
    Pow2Cells b22 ∧ Pow2Cells (slide_right b22).bd := by
  have hpow : Pow2Cells b22 := by
    apply pow2Cells_of_fin
    intro z hz
    fin_cases z <;> first
      | exact ⟨1, le_refl 1, rfl⟩
      | exact absurd rfl hz
  exact ⟨hpow, (C8_pow2_invariant b22 hpow).1⟩

/-- C9: with a nonnegative friction amount, `decrease_abs` never increases
the magnitude of a velocity component and never flips its sign (it is zero
or keeps the strict sign of its input); consequently over any sequence of
`tick` calls with nonnegative frame times, each velocity component's
magnitude never increases and its sign never flips. -/
theorem C9_friction_spec (x a : ℚ) (ha : 0 ≤ a) (p : ParticleM) (dts : List ℚ)
    (hdts : ∀ d ∈ dts, 0 ≤ d) :
    |decrease_abs x a| ≤ |x| ∧
      (decrease_abs x a = 0 ∨ (0 < x ∧ 0 < decrease_abs x a) ∨
        (x < 0 ∧ decrease_abs x a < 0)) ∧
      |(p.ticks dts).vel_x| ≤ |p.vel_x| ∧ |(p.ticks dts).vel_y| ≤ |p.vel_y| ∧
      (0 ≤ p.vel_x → 0 ≤ (p.ticks dts).vel_x) ∧
      (p.vel_x ≤ 0 → (p.ticks dts).vel_x ≤ 0) ∧
      (0 ≤ p.vel_y → 0 ≤ (p.ticks dts).vel_y) ∧
      (p.vel_y ≤ 0 → (p.ticks dts).vel_y ≤ 0) := by
  obtain ⟨h1, h2⟩ := decrease_abs_spec x a ha
  obtain ⟨t1, t2, t3, t4, t5, t6⟩ := ticks_vel dts hdts p
  exact ⟨h1, h2, t1, t2, t3, t4, t5, t6⟩

theorem C9_friction_spec_witness :
    |decrease_abs (5 : ℚ) 1| ≤ |(5 : ℚ)| :=
  (C9_friction_spec 5 1 (by norm_num) ⟨0, 0, 30, -40, 200⟩ [1/2]
    (by intro d hd; rcases List.mem_singleton.mp hd with rfl; norm_num)).1

/-- C10: every slide removes exactly one occupied cell per merge event
(the destination keeps a doubled tile, the source is emptied; plain moves
preserve occupancy), so the occupied count after equals the count before
minus the number of merges, and in particular never increases. -/
theorem C10_occupied_conservation (b : Board) :
    (occCount (slide_right b).bd = occCount b - (slide_right b).evs.length ∧
      occCount (slide_right b).bd ≤ occCount b) ∧
    (occCount (slide_left b).bd = occCount b - (slide_left b).evs.length ∧
      occCount (slide_left b).bd ≤ occCount b) ∧
    (occCount (slide_down b).bd = occCount b - (slide_down b).evs.length ∧
      occCount (slide_down b).bd ≤ occCount b) ∧
    (occCount (slide_up b).bd = occCount b - (slide_up b).evs.length ∧
      occCount (slide_up b).bd ≤ occCount b) := by
  have hr := (slide_right_conserve b).2
  have hl := (slide_left_conserve b).2
  have hd := (slide_down_conserve b).2
  have hu := (slide_up_conserve b).2
  exact ⟨⟨by omega, by omega⟩, ⟨by omega, by omega⟩,
    ⟨by omega, by omega⟩, ⟨by omega, by omega⟩⟩

theorem C10_occupied_conservation_witness :
    occCount (slide_right b22).bd = occCount b22 - (slide_right b22).evs.length :=
  (C10_occupied_conservation b22).1.1

end TOFE
